import Mathlib

/-!
# Verification of the gogolfing/cli argument-classification and dispatch library

This file embeds, in Lean, the token-classification engine of the library
(`ParseArgumentsInterspersed` and `didStopAfterDoubleMinus` from argparse.go,
the mode parsers `parseSubCommandFlagsFirst` / `parseSubCommandParametersFirst`
from subcommander.go) together with the collaborator it drives (the Go standard
library `flag.FlagSet` with `ContinueOnError`), and the multi-command
dispatcher (`SubCommander.executeContextOut` / `executeSubCommand` /
`parseSubCommandArgs` of the subcommand package, and `Commander.executeContext`
of the command package), and proves or refutes the specification claims about
them.

Modelling conventions:
* A declared flag is a `FlagDecl`: its name, whether its `flag.Value` reports
  `IsBoolFlag() == true`, and the behaviour of its `Value.Set` method
  (`setOk v = true` iff `Set(v)` returns nil).  The standard string flag has
  `setOk = fun _ => true`; the standard bool flag has `setOk = goBoolOk`
  (the acceptance set of `strconv.ParseBool`).
* A `flag.FlagSet` in its post-declaration, pre-parse condition is the list of
  its `FlagDecl`s.  Values written by `Set` during parsing are recorded as an
  ordered `List (String × String)` of (flag name, value string) assignments —
  in Go these are writes to the destinations bound at declaration time, and
  the final content of a destination is its last assignment.
* Go indexes the token bytes; the model indexes characters.  The characters
  inspected ('-', '=') are ASCII, so the two views agree on every token.
-/

namespace GogolfingCli

/-- `DoubleMinus` from cli.go: the literal terminator token. -/
def DoubleMinus : String := "--"

/-- Model of one flag declaration on a `flag.FlagSet` collaborator:
`name` as declared, `isBool` iff the declared `flag.Value` satisfies the
`boolFlag` interface with `IsBoolFlag() == true`, and `setOk v` telling
whether `Value.Set(v)` succeeds. -/
structure FlagDecl where
  name : String
  isBool : Bool
  setOk : String → Bool

/-- The acceptance set of Go `strconv.ParseBool`, used by the standard
bool flag's `Set`. -/
def goBoolOk (s : String) : Bool :=
  s ∈ (["1", "t", "T", "true", "TRUE", "True",
        "0", "f", "F", "false", "FALSE", "False"] : List String)

/-- Errors produced by `flag.FlagSet.Parse` (mode `ContinueOnError`),
one constructor per `failf`/`ErrHelp` site of `parseOne`. -/
inductive ParseErr where
  /-- `flag.ErrHelp`: `-help` or `-h` requested but not defined. -/
  | errHelp
  /-- "flag provided but not defined: -name" -/
  | notDefined (name : String)
  /-- "bad flag syntax: tok" -/
  | badSyntax (tok : String)
  /-- "flag needs an argument: -name" -/
  | needsArg (name : String)
  /-- "invalid boolean value value for -name" (inline `=value` on a bool flag
  rejected by its `Set`) -/
  | invalidBool (value name : String)
  /-- "invalid boolean flag name" (`Set("true")` rejected on a bool flag) -/
  | invalidBoolFlag (name : String)
  /-- "invalid value value for flag -name" (`Set` rejected on a value flag) -/
  | invalidValue (value name : String)
deriving DecidableEq, Repr

/-- Map lookup `f.formal[name]` of the flag set. -/
def findFlag (f : List FlagDecl) (name : String) : Option FlagDecl :=
  f.find? (fun d => d.name == name)

/-- Splits `name` characters at the first `'='`, Go's
`for i := 1; i < len(name); i++` scan: the first character is never a split
point.  Auxiliary: `acc` holds the (reversed) prefix scanned so far. -/
def splitEqAux (acc : List Char) : List Char → List Char × Option (List Char)
  | [] => (acc.reverse, none)
  | c :: rest =>
    if c = '=' then (acc.reverse, some rest) else splitEqAux (c :: acc) rest

/-- Name/inline-value split of a flag token body (Go `parseOne`'s `=` scan,
starting at index 1). -/
def splitEqName : List Char → List Char × Option (List Char)
  | [] => ([], none)
  | c :: rest => splitEqAux [c] rest

/-- What Go `parseOne` decides from the token at the front of `f.args`,
before it touches any further token. -/
inductive TokAction where
  /-- not flag-shaped (`len(s) < 2 || s[0] != '-'`): stop without consuming. -/
  | stop
  /-- the literal `--`: consume it and stop. -/
  | dd
  /-- error raised before `f.args` is advanced ("bad flag syntax"). -/
  | errTok (e : ParseErr)
  /-- error raised after the token is consumed. -/
  | errNow (e : ParseErr)
  /-- the token alone sets flag `name` to `value` (bool flag, or inline
  `=value`), consuming only the token itself. -/
  | setNow (name value : String)
  /-- value flag without inline value: the token is consumed and the flag's
  value must come from the next token. -/
  | needsValue (d : FlagDecl) (name : String)

/-- Per-token decision of Go `flag.FlagSet.parseOne`, following its control
flow line by line. -/
def classifyTok (f : List FlagDecl) (s : String) : TokAction :=
  let cs := s.toList
  if cs.length < 2 ∨ cs.head? ≠ some '-' then .stop
  else if cs.get? 1 = some '-' ∧ cs.length = 2 then .dd
  else
    let nameCs := if cs.get? 1 = some '-' then cs.drop 2 else cs.drop 1
    if nameCs.head? = none ∨ nameCs.head? = some '-' ∨ nameCs.head? = some '=' then
      .errTok (.badSyntax s)
    else
      let p := splitEqName nameCs
      let name : String := ⟨p.1⟩
      match findFlag f name, p.2 with
      | none, _ =>
        if name = "help" ∨ name = "h" then .errNow .errHelp
        else .errNow (.notDefined name)
      | some d, some v =>
        let value : String := ⟨v⟩
        if d.isBool then
          if d.setOk value then .setNow name value
          else .errNow (.invalidBool value name)
        else
          if d.setOk value then .setNow name value
          else .errNow (.invalidValue value name)
      | some d, none =>
        if d.isBool then
          if d.setOk "true" then .setNow name "true"
          else .errNow (.invalidBoolFlag name)
        else .needsValue d name

/-- Outcome of Go `flag.FlagSet.parseOne` on the current argument list. -/
inductive Step where
  /-- returned `(false, nil)` without consuming: no tokens left, or the first
  token is not flag-shaped. -/
  | stop
  /-- the first token was exactly `--`: it is consumed and parsing stops;
  `rest` is `f.args` afterwards. -/
  | stopDD (rest : List String)
  /-- returned an error; `rest` is `f.args` at that point. -/
  | err (e : ParseErr) (rest : List String)
  /-- one flag consumed and `Set(value)` succeeded; `rest` is `f.args`
  afterwards. -/
  | ok (rest : List String) (name value : String)

/-- Model of Go `flag.FlagSet.parseOne` (flag package, `ContinueOnError`):
consumes at most one flag (and possibly its value from the next token). -/
def parseOne (f : List FlagDecl) : List String → Step
  | [] => .stop
  | s :: rest =>
    match classifyTok f s with
    | .stop => .stop
    | .dd => .stopDD rest
    | .errTok e => .err e (s :: rest)
    | .errNow e => .err e rest
    | .setNow n v => .ok rest n v
    | .needsValue d n =>
      match rest with
      | v :: rest' =>
        if d.setOk v then .ok rest' n v
        else .err (.invalidValue v n) rest'
      | [] => .err (.needsArg n) []

theorem parseOne_ok_shape {f : List FlagDecl} {s : String} {rest rest' : List String}
    {n v : String} (h : parseOne f (s :: rest) = .ok rest' n v) :
    rest' = rest ∨ ∃ hd, rest = hd :: rest' := by
  cases hc : classifyTok f s <;> simp [parseOne, hc] at h
  · exact Or.inl h.1.symm
  · rename_i d nm
    cases rest with
    | nil => simp at h
    | cons hd tl =>
      by_cases hok : d.setOk hd = true <;> simp [hok] at h
      exact Or.inr ⟨hd, by rw [h.1]⟩

theorem parseOne_ok_length {f : List FlagDecl} {s : String} {rest rest' : List String}
    {n v : String} (h : parseOne f (s :: rest) = .ok rest' n v) :
    rest'.length ≤ rest.length := by
  rcases parseOne_ok_shape h with rfl | ⟨hd, hh⟩
  · exact le_refl _
  · rw [hh]; simp


/-- Model of `flag.FlagSet.Parse` (`ContinueOnError`): iterate `parseOne`
until it stops or errors.  Returns (error, remaining arguments = `f.Args()`,
the ordered trace of `Set` assignments performed). -/
def flagParse (f : List FlagDecl) : List String → Option ParseErr × List String × List (String × String)
  | [] => (none, [], [])
  | s :: rest =>
    match classifyTok f s with
    | .stop => (none, s :: rest, [])
    | .dd => (none, rest, [])
    | .errTok e => (some e, s :: rest, [])
    | .errNow e => (some e, rest, [])
    | .setNow n v =>
      let r := flagParse f rest
      (r.1, r.2.1, (n, v) :: r.2.2)
    | .needsValue d n =>
      match rest with
      | [] => (some (.needsArg n), [], [])
      | v :: rest' =>
        if d.setOk v then
          let r := flagParse f rest'
          (r.1, r.2.1, (n, v) :: r.2.2)
        else (some (.invalidValue v n), rest', [])

/-- `flagParse` takes exactly one `parseOne` step and recurses on success;
this is the `for { seen, err := f.parseOne(); ... }` loop of Go `Parse`. -/
theorem flagParse_step (f : List FlagDecl) (args : List String) :
    flagParse f args =
      match parseOne f args with
      | .stop => (none, args, [])
      | .stopDD rest => (none, rest, [])
      | .err e rest => (some e, rest, [])
      | .ok rest n v =>
        let r := flagParse f rest
        (r.1, r.2.1, (n, v) :: r.2.2) := by
  cases args with
  | nil => simp [parseOne, flagParse]
  | cons s rest =>
    cases hc : classifyTok f s <;> simp [parseOne, flagParse, hc]
    cases rest with
    | nil => simp
    | cons v rest' =>
      rename_i d n
      by_cases hok : d.setOk v = true <;> simp [hok]

theorem flagParse_len_aux (f : List FlagDecl) :
    ∀ (n : Nat) (args : List String), args.length ≤ n →
      (flagParse f args).2.1.length ≤ args.length := by
  intro n
  induction n with
  | zero =>
    intro args h
    have : args = [] := List.length_eq_zero.mp (Nat.le_zero.mp h)
    subst this
    simp [flagParse]
  | succ n ih =>
    intro args h
    cases args with
    | nil => simp [flagParse]
    | cons s rest =>
      have hrest : rest.length ≤ n := by simpa using h
      cases hc : classifyTok f s with
      | stop => simp [flagParse, hc]
      | dd => simp [flagParse, hc]
      | errTok e => simp [flagParse, hc]
      | errNow e => simp [flagParse, hc]
      | setNow nm v =>
        simp only [flagParse, hc]
        exact le_trans (ih rest hrest) (by simp)
      | needsValue d nm =>
        cases rest with
        | nil => simp [flagParse, hc]
        | cons v rest' =>
          by_cases hok : d.setOk v = true
          · simp only [flagParse, hc]
            rw [if_pos hok]
            have h2 : rest'.length ≤ n := le_trans (by simp) hrest
            exact le_trans (ih rest' h2) (by simp [List.length_cons]; omega)
          · simp only [flagParse, hc]
            rw [if_neg hok]
            simp [List.length_cons]
            omega

theorem flagParse_len (f : List FlagDecl) (args : List String) :
    (flagParse f args).2.1.length ≤ args.length :=
  flagParse_len_aux f args.length args (le_refl _)

theorem flagParse_mem_aux (f : List FlagDecl) :
    ∀ (n : Nat) (args : List String), args.length ≤ n →
      ∀ a ∈ (flagParse f args).2.1, a ∈ args := by
  intro n
  induction n with
  | zero =>
    intro args h
    have : args = [] := List.length_eq_zero.mp (Nat.le_zero.mp h)
    subst this
    simp [flagParse]
  | succ n ih =>
    intro args h
    cases args with
    | nil => simp [flagParse]
    | cons s rest =>
      have hrest : rest.length ≤ n := by simpa using h
      cases hc : classifyTok f s with
      | stop => simp [flagParse, hc]
      | dd => intro a ha; simp only [flagParse, hc] at ha; exact List.mem_cons_of_mem _ ha
      | errTok e => simp [flagParse, hc]
      | errNow e => intro a ha; simp only [flagParse, hc] at ha; exact List.mem_cons_of_mem _ ha
      | setNow nm v =>
        intro a ha
        simp only [flagParse, hc] at ha
        exact List.mem_cons_of_mem _ (ih rest hrest a ha)
      | needsValue d nm =>
        cases rest with
        | nil => simp [flagParse, hc]
        | cons v rest' =>
          intro a ha
          by_cases hok : d.setOk v = true <;>
            simp only [flagParse, hc, hok, if_true, if_false] at ha
          · have : rest'.length ≤ n := le_trans (by simp) hrest
            exact List.mem_cons_of_mem _ (List.mem_cons_of_mem _ (ih rest' this a ha))
          · exact List.mem_cons_of_mem _ (List.mem_cons_of_mem _ ha)

theorem flagParse_mem (f : List FlagDecl) (args : List String) :
    ∀ a ∈ (flagParse f args).2.1, a ∈ args :=
  flagParse_mem_aux f args.length args (le_refl _)

/-- `didStopAfterDoubleMinus` from argparse.go:
`len(args) > len(remaining) && args[len(args)-len(remaining)-1] == DoubleMinus`. -/
def didStopAfterDoubleMinus (args remaining : List String) : Bool :=
  decide (remaining.length < args.length) &&
    decide (args.get? (args.length - remaining.length - 1) = some DoubleMinus)

/-- The loop of `ParseArgumentsInterspersed` from argparse.go, carrying the
accumulated `params` (`acc`) and the trace of flag assignments made on `f`
(`assigns`).  Per iteration: run `f.Parse(args)`; on error exit the loop;
if `didStopAfterDoubleMinus(args, f.Args())` append all of `f.Args()` to
`params` and clear `args`; otherwise set `args = f.Args()` and move one
token into `params`.  Returns (final `err`, final `params`, assignment
trace). -/
def interLoop (f : List FlagDecl) (args acc : List String)
    (assigns : List (String × String)) :
    Option ParseErr × List String × List (String × String) :=
  if args = [] then (none, acc, assigns)
  else
    match hfp : flagParse f args with
    | (some e, _, sets) => (some e, acc, assigns ++ sets)
    | (none, rem, sets) =>
      if didStopAfterDoubleMinus args rem then (none, acc ++ rem, assigns ++ sets)
      else
        match rem with
        | [] => (none, acc, assigns ++ sets)
        | s :: t => interLoop f t (acc ++ [s]) (assigns ++ sets)
termination_by args.length
decreasing_by
  have hlen := flagParse_len f args
  rw [hfp] at hlen
  simp only [] at hlen
  simp at hlen
  omega

/-- Result of `ParseArgumentsInterspersed`: Go's `(params []string, err error)`
with `params = none` modelling a nil slice. -/
structure InterspersedResult where
  params : Option (List String)
  err : Option ParseErr
deriving DecidableEq, Repr

/-- `ParseArgumentsInterspersed` from argparse.go: `params` starts as the
non-nil empty slice, the loop runs while `err == nil && len(args) > 0`, and
after the loop `params` is set to nil iff `err != nil`. -/
def ParseArgumentsInterspersed (f : List FlagDecl) (args : List String) :
    InterspersedResult :=
  match interLoop f args [] [] with
  | (some e, _, _) => ⟨none, some e⟩
  | (none, ps, _) => ⟨some ps, none⟩

/-- The assignment trace of the same run of `ParseArgumentsInterspersed`:
the values `Set` on `f`'s declared flags, in order.  (In Go these are side
effects on the destinations bound at declaration.) -/
def parseArgumentsInterspersedAssigns (f : List FlagDecl) (args : List String) :
    List (String × String) :=
  (interLoop f args [] []).2.2

/-- Reference classification, written from the spec sentence "Interspersed
classification yields exactly the input with recognized flag tokens (and
consumed values) removed, preserving relative order": walk the tokens once;
keep each non-flag-shaped token; drop each recognized flag token together
with the value token it consumes; `--` at an unconsumed boundary makes the
remainder verbatim parameters; any collaborator parse error gives `none`. -/
def removeRecognizedFlags (f : List FlagDecl) : List String → Option (List String)
  | [] => some []
  | s :: rest =>
    match classifyTok f s with
    | .stop => (removeRecognizedFlags f rest).map (s :: ·)
    | .dd => some rest
    | .errTok _ => none
    | .errNow _ => none
    | .setNow _ _ => removeRecognizedFlags f rest
    | .needsValue d _ =>
      match rest with
      | [] => none
      | v :: rest' => if d.setOk v then removeRecognizedFlags f rest' else none

theorem classifyTok_dd_eq {f : List FlagDecl} {s : String}
    (h : classifyTok f s = .dd) : s = DoubleMinus := by
  unfold classifyTok at h
  dsimp only at h
  split at h
  · simp at h
  · split at h
    · rename_i h1 h2
      push_neg at h1
      obtain ⟨hlen2, hhead⟩ := h1
      obtain ⟨hsnd, hlen⟩ := h2
      apply String.ext
      show s.toList = "--".toList
      cases hcs : s.toList with
      | nil => rw [hcs] at hlen; simp at hlen
      | cons a tl =>
        cases tl with
        | nil => rw [hcs] at hlen; simp at hlen
        | cons b tl2 =>
          rw [hcs] at hlen hhead hsnd
          have htl2 : tl2 = [] := by
            have h3 := hlen
            simp only [List.length_cons] at h3
            have h4 : tl2.length = 0 := by omega
            exact List.length_eq_zero.mp h4
          subst htl2
          simp at hhead hsnd
          rw [hhead, hsnd]
          rfl
    · exfalso
      iterate 6 (all_goals (try split at h))
      all_goals simp at h

theorem didStop_false_of_no_dd {args rem : List String}
    (hdd : ∀ a ∈ args, a ≠ DoubleMinus) :
    didStopAfterDoubleMinus args rem = false := by
  have h2 : ¬ args.get? (args.length - rem.length - 1) = some DoubleMinus := by
    intro hsome
    exact hdd _ (List.get?_mem hsome) rfl
  unfold didStopAfterDoubleMinus
  rw [decide_eq_false h2, Bool.and_false]

/-- On a token list without the `--` token and accepted by the reference
classifier, one full `Parse` call of the collaborator errors on nothing,
removes only recognized flag groups, and stops at a non-flag boundary. -/
theorem flagParse_removeFlags_aux (f : List FlagDecl) :
    ∀ (n : Nat) (args : List String), args.length ≤ n →
      (∀ a ∈ args, a ≠ DoubleMinus) →
      ∀ ps, removeRecognizedFlags f args = some ps →
      ∃ rem sets, flagParse f args = (none, rem, sets) ∧
        rem.length ≤ args.length ∧ (∀ a ∈ rem, a ∈ args) ∧
        removeRecognizedFlags f rem = some ps ∧ parseOne f rem = .stop := by
  intro n
  induction n with
  | zero =>
    intro args h hdd ps hps
    have : args = [] := List.length_eq_zero.mp (Nat.le_zero.mp h)
    subst this
    exact ⟨[], [], by simp [flagParse], by simp, by simp, hps, rfl⟩
  | succ n ih =>
    intro args h hdd ps hps
    cases args with
    | nil => exact ⟨[], [], by simp [flagParse], by simp, by simp, hps, rfl⟩
    | cons s rest =>
      have hrest : rest.length ≤ n := by simpa using h
      cases hc : classifyTok f s with
      | stop =>
        refine ⟨s :: rest, [], by simp [flagParse, hc], le_refl _, fun a ha => ha, hps, ?_⟩
        simp [parseOne, hc]
      | dd =>
        exact absurd (classifyTok_dd_eq hc) (hdd s (by simp))
      | errTok e => simp [removeRecognizedFlags, hc] at hps
      | errNow e => simp [removeRecognizedFlags, hc] at hps
      | setNow nm v =>
        have hps' : removeRecognizedFlags f rest = some ps := by
          simpa [removeRecognizedFlags, hc] using hps
        obtain ⟨rem, sets, h1, h2, h3, h4, h5⟩ :=
          ih rest hrest (fun a ha => hdd a (List.mem_cons_of_mem _ ha)) ps hps'
        refine ⟨rem, (nm, v) :: sets, ?_, le_trans h2 (by simp), ?_, h4, h5⟩
        · simp only [flagParse, hc, h1]
        · exact fun a ha => List.mem_cons_of_mem _ (h3 a ha)
      | needsValue d nm =>
        cases rest with
        | nil => simp [removeRecognizedFlags, hc] at hps
        | cons v rest' =>
          by_cases hok : d.setOk v = true
          · have hps' : removeRecognizedFlags f rest' = some ps := by
              simpa [removeRecognizedFlags, hc, hok] using hps
            have hrest' : rest'.length ≤ n := by
              simp [List.length_cons] at hrest ⊢; omega
            obtain ⟨rem, sets, h1, h2, h3, h4, h5⟩ :=
              ih rest' hrest'
                (fun a ha =>
                  hdd a (List.mem_cons_of_mem _ (List.mem_cons_of_mem _ ha)))
                ps hps'
            refine ⟨rem, (nm, v) :: sets, ?_, ?_, ?_, h4, h5⟩
            · simp only [flagParse, hc]
              rw [if_pos hok]
              simp only [h1]
            · exact le_trans h2 (by simp [List.length_cons]; omega)
            · exact fun a ha =>
                List.mem_cons_of_mem _ (List.mem_cons_of_mem _ (h3 a ha))
          · simp [removeRecognizedFlags, hc, hok] at hps

theorem parseOne_stop_classify {f : List FlagDecl} {s : String} {rest : List String}
    (h : parseOne f (s :: rest) = .stop) : classifyTok f s = .stop := by
  cases hc : classifyTok f s <;> simp [parseOne, hc] at h
  · rfl
  · rename_i d nm
    cases rest with
    | nil => simp at h
    | cons v t =>
      by_cases hok : d.setOk v = true <;> simp [hok] at h


/-- One unfolding of the `ParseArgumentsInterspersed` loop. -/
theorem interLoop_eq (f : List FlagDecl) (args acc : List String)
    (assigns : List (String × String)) :
    interLoop f args acc assigns =
      if args = [] then (none, acc, assigns)
      else
        match flagParse f args with
        | (some e, _, sets) => (some e, acc, assigns ++ sets)
        | (none, rem, sets) =>
          if didStopAfterDoubleMinus args rem then (none, acc ++ rem, assigns ++ sets)
          else
            match rem with
            | [] => (none, acc, assigns ++ sets)
            | s :: t => interLoop f t (acc ++ [s]) (assigns ++ sets) := by
  rw [interLoop]
  by_cases ha : args = []
  · simp [ha]
  · rw [if_neg ha, if_neg ha]
    split
    · rename_i e fst sets heq
      simp only [heq]
    · rename_i rem sets heq
      simp only [heq]
      by_cases hds : didStopAfterDoubleMinus args rem = true
      · simp [hds]
      · simp only [Bool.not_eq_true] at hds
        simp only [hds, Bool.false_eq_true, if_false]
        cases rem <;> rfl

/-- The loop of `ParseArgumentsInterspersed` refines the reference
classification on inputs without the `--` token. -/
theorem interLoop_removeFlags_aux (f : List FlagDecl) :
    ∀ (n : Nat) (args : List String), args.length ≤ n →
      ∀ (acc : List String) (assigns : List (String × String)) (ps : List String),
      (∀ a ∈ args, a ≠ DoubleMinus) →
      removeRecognizedFlags f args = some ps →
      ∃ asg, interLoop f args acc assigns = (none, acc ++ ps, asg) := by
  intro n
  induction n with
  | zero =>
    intro args h acc assigns ps hdd hps
    have : args = [] := List.length_eq_zero.mp (Nat.le_zero.mp h)
    subst this
    have : ps = [] := by simpa [removeRecognizedFlags] using hps.symm
    subst this
    exact ⟨assigns, by simp [interLoop_eq]⟩
  | succ n ih =>
    intro args h acc assigns ps hdd hps
    cases args with
    | nil =>
      have : ps = [] := by simpa [removeRecognizedFlags] using hps.symm
      subst this
      exact ⟨assigns, by simp [interLoop_eq]⟩
    | cons s rest =>
      obtain ⟨rem, sets, h1, h2, h3, h4, h5⟩ :=
        flagParse_removeFlags_aux f (s :: rest).length (s :: rest) (le_refl _) hdd ps hps
      have hds : didStopAfterDoubleMinus (s :: rest) rem = false :=
        didStop_false_of_no_dd hdd
      rw [interLoop_eq, if_neg (List.cons_ne_nil s rest), h1]
      dsimp only
      simp only [hds, Bool.false_eq_true, if_false]
      cases hr : rem with
      | nil =>
        have : ps = [] := by
          rw [hr] at h4
          simpa [removeRecognizedFlags] using h4.symm
        subst this
        exact ⟨assigns ++ sets, by simp⟩
      | cons s' t =>
        rw [hr] at h4 h5 h2 h3
        have hcs' : classifyTok f s' = .stop := parseOne_stop_classify h5
        have h4' : (removeRecognizedFlags f t).map (s' :: ·) = some ps := by
          simpa [removeRecognizedFlags, hcs'] using h4
        obtain ⟨ps', hps', hpse⟩ :
            ∃ ps', removeRecognizedFlags f t = some ps' ∧ ps = s' :: ps' := by
          cases hopt : removeRecognizedFlags f t with
          | none => rw [hopt] at h4'; simp at h4'
          | some ps' =>
            rw [hopt] at h4'
            simp at h4'
            exact ⟨ps', rfl, h4'.symm⟩
        have ht : t.length ≤ n := by
          simp [List.length_cons] at h2 h
          omega
        have hddt : ∀ a ∈ t, a ≠ DoubleMinus := fun a ha =>
          hdd a (h3 a (List.mem_cons_of_mem _ ha))
        obtain ⟨asg, hloop⟩ := ih t ht (acc ++ [s']) (assigns ++ sets) ps' hddt hps'
        refine ⟨asg, ?_⟩
        dsimp only
        rw [hloop, hpse]
        simp

/-- Fuel-indexed copy of `interLoop`, used only to evaluate the loop on
concrete inputs (`interLoop` itself is defined by well-founded recursion and
does not reduce definitionally). -/
def interLoopF : Nat → List FlagDecl → List String → List String →
    List (String × String) → Option ParseErr × List String × List (String × String)
  | 0, _, _, acc, assigns => (none, acc, assigns)
  | fuel + 1, f, args, acc, assigns =>
    if args = [] then (none, acc, assigns)
    else
      match flagParse f args with
      | (some e, _, sets) => (some e, acc, assigns ++ sets)
      | (none, rem, sets) =>
        if didStopAfterDoubleMinus args rem then (none, acc ++ rem, assigns ++ sets)
        else
          match rem with
          | [] => (none, acc, assigns ++ sets)
          | s :: t => interLoopF fuel f t (acc ++ [s]) (assigns ++ sets)

theorem interLoop_eq_fuel :
    ∀ (n : Nat) (f : List FlagDecl) (args acc : List String)
      (assigns : List (String × String)), args.length ≤ n →
      interLoop f args acc assigns = interLoopF n f args acc assigns := by
  intro n
  induction n with
  | zero =>
    intro f args acc assigns h
    have : args = [] := List.length_eq_zero.mp (Nat.le_zero.mp h)
    subst this
    simp [interLoop_eq, interLoopF]
  | succ n ih =>
    intro f args acc assigns h
    rw [interLoop_eq]
    by_cases ha : args = []
    · simp [ha, interLoopF]
    · rw [interLoopF, if_neg ha, if_neg ha]
      cases hfp : flagParse f args with
      | mk e rst =>
        cases e with
        | some e => rfl
        | none =>
          by_cases hds : didStopAfterDoubleMinus args rst.1 = true
          · simp [hds]
          · simp only [Bool.not_eq_true] at hds
            simp only [hds, Bool.false_eq_true, if_false]
            cases hr : rst.1 with
            | nil => rfl
            | cons s t =>
              have hlen := flagParse_len f args
              rw [hfp] at hlen
              simp only [hr] at hlen
              have ht : t.length ≤ n := by
                simp [List.length_cons] at hlen
                omega
              exact ih f t (acc ++ [s]) (assigns ++ rst.2) ht

/-- Evaluation form of `ParseArgumentsInterspersed` on concrete inputs. -/
theorem ParseArgumentsInterspersed_eval (f : List FlagDecl) (args : List String) :
    ParseArgumentsInterspersed f args =
      match interLoopF args.length f args [] [] with
      | (some e, _, _) => ⟨none, some e⟩
      | (none, ps, _) => ⟨some ps, none⟩ := by
  unfold ParseArgumentsInterspersed
  rw [interLoop_eq_fuel args.length f args [] [] (le_refl _)]

/-- A flag declared with `flag.String`/`flag.Var` with an always-accepting
`Set` (Go's string flags never reject a value). -/
def strFlag (n : String) : FlagDecl := ⟨n, false, fun _ => true⟩

/-- A flag declared with `flag.Bool`: `IsBoolFlag() == true`, `Set` accepts
exactly the `strconv.ParseBool` inputs. -/
def boolFlagD (n : String) : FlagDecl := ⟨n, true, goBoolOk⟩

/-- C1 (amended).  For every flag set and every token sequence in which the
token `--` does not occur at all and which the collaborator classifies
without error (`removeRecognizedFlags` succeeds), `ParseArgumentsInterspersed`
succeeds and returns exactly the input with the recognized flag tokens and
their consumed values removed, preserving relative order; the empty token
list yields an empty capture with no error, and a lone empty-string token is
captured as a parameter. -/
theorem C1_interspersed_refines_removal :
    (∀ (f : List FlagDecl) (args ps : List String),
        (∀ a ∈ args, a ≠ DoubleMinus) →
        removeRecognizedFlags f args = some ps →
        ParseArgumentsInterspersed f args = ⟨some ps, none⟩) ∧
    (∀ f : List FlagDecl, ParseArgumentsInterspersed f [] = ⟨some [], none⟩) ∧
    (∀ f : List FlagDecl, ParseArgumentsInterspersed f [""] = ⟨some [""], none⟩) := by
  refine ⟨?_, ?_, ?_⟩
  · intro f args ps hdd hps
    obtain ⟨asg, h⟩ :=
      interLoop_removeFlags_aux f args.length args (le_refl _) [] [] ps hdd hps
    unfold ParseArgumentsInterspersed
    rw [h]
    simp
  · intro f
    rw [ParseArgumentsInterspersed_eval]
    rfl
  · intro f
    rw [ParseArgumentsInterspersed_eval]
    rfl

/-- Witness for C1 at a concrete input: `-a` takes a value, `-b` is boolean,
and classification of `["-a","10","hello","-b","world"]` captures exactly
`["hello","world"]`. -/
theorem C1_witness :
    ((∀ a ∈ (["-a", "10", "hello", "-b", "world"] : List String), a ≠ DoubleMinus) ∧
      removeRecognizedFlags [strFlag "a", boolFlagD "b"]
        ["-a", "10", "hello", "-b", "world"] = some ["hello", "world"]) ∧
    ParseArgumentsInterspersed [strFlag "a", boolFlagD "b"]
      ["-a", "10", "hello", "-b", "world"] = ⟨some ["hello", "world"], none⟩ :=
  ⟨⟨by decide, by rfl⟩,
    C1_interspersed_refines_removal.1 _ _ _ (by decide) (by rfl)⟩

/-- C1, claim as frozen, is false: `["-z"]` with no flags declared contains no
terminator at any boundary, yet classification fails ("flag provided but not
defined: -z") instead of succeeding with `["-z"]` (or with any params). -/
theorem C1_counterexample :
    (∀ a ∈ (["-z"] : List String), a ≠ DoubleMinus) ∧
    ParseArgumentsInterspersed [] ["-z"] =
      ⟨none, some (.notDefined "z")⟩ :=
  ⟨by decide, by rw [ParseArgumentsInterspersed_eval]; rfl⟩

/-- C2.  Whenever `--` is the literal terminator at an unconsumed stop
boundary — the collaborator's `Parse` call on the current remainder consumed
a (possibly empty) maximal flag prefix `pre` and then stopped by consuming
the terminator, leaving exactly the suffix after it — every remaining token
is appended verbatim to the capture and classification finishes
successfully; in particular, for every flag set,
`classify(["--"]) = ([], nil)` and
`classify(["--","-a","10","x"]) = (["-a","10","x"], nil)` even when `-a` is
declared, so tokens after the terminator are never reinterpreted as flags. -/
theorem C2_terminator_verbatim :
    (∀ (f : List FlagDecl) (args pre rest acc : List String)
        (assigns sets : List (String × String)),
      args = pre ++ DoubleMinus :: rest →
      flagParse f args = (none, rest, sets) →
      interLoop f args acc assigns = (none, acc ++ rest, assigns ++ sets)) ∧
    (∀ (f : List FlagDecl) (rest : List String),
      ParseArgumentsInterspersed f (DoubleMinus :: rest) = ⟨some rest, none⟩) := by
  have hmain : ∀ (f : List FlagDecl) (args pre rest acc : List String)
      (assigns sets : List (String × String)),
      args = pre ++ DoubleMinus :: rest →
      flagParse f args = (none, rest, sets) →
      interLoop f args acc assigns = (none, acc ++ rest, assigns ++ sets) := by
    intro f args pre rest acc assigns sets hargs hfp2
    have hlen : rest.length < args.length := by
      subst hargs
      simp [List.length_append, List.length_cons]
      omega
    have hidx : args.get? (args.length - rest.length - 1) = some DoubleMinus := by
      subst hargs
      have h1 : (pre ++ DoubleMinus :: rest).length - rest.length - 1 = pre.length := by
        simp [List.length_append, List.length_cons]
        omega
      rw [h1, List.get?_append_right (le_refl pre.length)]
      simp
    have hds : didStopAfterDoubleMinus args rest = true := by
      unfold didStopAfterDoubleMinus
      rw [decide_eq_true hlen, decide_eq_true hidx]
      rfl
    have hargs_ne : args ≠ [] := by
      subst hargs
      simp
    rw [interLoop_eq, if_neg hargs_ne, hfp2]
    dsimp only
    rw [hds]
    rfl
  have hdd2 : ∀ f : List FlagDecl, classifyTok f DoubleMinus = TokAction.dd :=
    fun _ => rfl
  have hfp : ∀ (f : List FlagDecl) (rest : List String),
      flagParse f (DoubleMinus :: rest) = (none, rest, []) := by
    intro f rest
    simp [flagParse, hdd2 f]
  refine ⟨hmain, ?_⟩
  intro f rest
  unfold ParseArgumentsInterspersed
  rw [hmain f (DoubleMinus :: rest) [] rest [] [] [] (by simp) (hfp f rest)]
  simp

/-- Witness for C2 at a mid-parse terminator: with `-a` declared, in
`["-a","10","--","x","-a","1"]` the `Parse` call consumes `-a 10`, then the
terminator, and everything after it is captured verbatim (the second `-a`
is not parsed as a flag). -/
theorem C2_witness :
    (["-a", "10", "--", "x", "-a", "1"] =
        ["-a", "10"] ++ DoubleMinus :: ["x", "-a", "1"] ∧
      flagParse [strFlag "a"] ["-a", "10", "--", "x", "-a", "1"] =
        (none, ["x", "-a", "1"], [("a", "10")])) ∧
    interLoop [strFlag "a"] ["-a", "10", "--", "x", "-a", "1"] [] [] =
      (none, [] ++ ["x", "-a", "1"], [] ++ [("a", "10")]) :=
  ⟨⟨rfl, rfl⟩,
    C2_terminator_verbatim.1 [strFlag "a"] ["-a", "10", "--", "x", "-a", "1"]
      ["-a", "10"] ["x", "-a", "1"] [] [] [("a", "10")] rfl rfl⟩

/-- C5 evaluated at the failing input: with `-value` and `-a` declared, in
`["-value","--","x","-a","1"]` the `--` is consumed as `-value`'s own value,
yet the code's `didStopAfterDoubleMinus` heuristic fires at the next stop
boundary: all of `["x","-a","1"]` is captured verbatim and `-a` is never
parsed as a flag (the assignment trace sets only `value = "--"`), whereas
continuing normally (the reference classifier) would capture only `["x"]`
and set `-a` to `"1"`. -/
theorem C5_dd_as_flag_value_triggers_terminator :
    ParseArgumentsInterspersed [strFlag "value", strFlag "a"]
        ["-value", DoubleMinus, "x", "-a", "1"] = ⟨some ["x", "-a", "1"], none⟩ ∧
    parseArgumentsInterspersedAssigns [strFlag "value", strFlag "a"]
        ["-value", DoubleMinus, "x", "-a", "1"] = [("value", DoubleMinus)] ∧
    removeRecognizedFlags [strFlag "value", strFlag "a"]
        ["-value", DoubleMinus, "x", "-a", "1"] = some ["x"] := by
  refine ⟨?_, ?_, by rfl⟩
  · rw [ParseArgumentsInterspersed_eval]
    rfl
  · unfold parseArgumentsInterspersedAssigns
    rw [interLoop_eq_fuel 5 _ _ _ _ (by decide)]
    rfl

/-- C10.  `ParseArgumentsInterspersed` returns a nil params slice exactly on
error: `params == nil` iff `err != nil`, and on success params is a non-nil
(possibly empty) slice. -/
theorem C10_params_nil_iff_err :
    ∀ (f : List FlagDecl) (args : List String),
      ((ParseArgumentsInterspersed f args).err.isSome →
        (ParseArgumentsInterspersed f args).params = none) ∧
      ((ParseArgumentsInterspersed f args).err = none →
        ∃ ps, (ParseArgumentsInterspersed f args).params = some ps) := by
  intro f args
  unfold ParseArgumentsInterspersed
  rcases h : interLoop f args [] [] with ⟨e, ps, asg⟩
  cases e <;> simp

/-- Errors of the sub-command mode parsers of subcommander.go (package cli):
either an error returned by `f.Parse`, or a `FlagsAfterParametersError`
carrying its string payload. -/
inductive ModeErr where
  | flagErr (e : ParseErr)
  | flagsAfterParams (tokens : String)
deriving DecidableEq, Repr

/-- `err.Error()` of the modelled parse errors, as formatted by Go
`flag.FlagSet.failf` (for `Set` failures Go appends the collaborator's own
error text after a colon; that suffix is outside the model and none of the
verified statements depends on it). -/
def goErrString : ParseErr → String
  | .errHelp => "flag: help requested"
  | .notDefined n => "flag provided but not defined: -" ++ n
  | .badSyntax s => "bad flag syntax: " ++ s
  | .needsArg n => "flag needs an argument: -" ++ n
  | .invalidBool v n => "invalid boolean value \"" ++ v ++ "\" for -" ++ n
  | .invalidBoolFlag n => "invalid boolean flag " ++ n
  | .invalidValue v n => "invalid value \"" ++ v ++ "\" for flag -" ++ n

/-- `parseSubCommandFlagsFirst` from subcommander.go, up to the final
`subCommand.SetParameters(f.Args())` call: `.ok` carries the parameter list
handed to `SetParameters`, `.error` the error returned before that call. -/
def parseSubCommandFlagsFirst (f : List FlagDecl) (args : List String) :
    Except ModeErr (List String) :=
  match flagParse f args with
  | (some e, _, _) => .error (.flagErr e)
  | (none, rem, _) => .ok rem

/-- `f.actual[name] = flag` bookkeeping: the set of flag names that have been
`Set` so far (`f.NFlag()` is its size). -/
def insertName (n : String) (ns : List String) : List String :=
  if n ∈ ns then ns else ns ++ [n]

/-- Records the names of a parse call's assignments into the `NFlag`
bookkeeping. -/
def applySets (ns : List String) (sets : List (String × String)) : List String :=
  sets.foldl (fun acc p => insertName p.1 acc) ns

/-- The loop of `parseSubCommandParametersFirst` from subcommander.go:
`for err == nil && f.NFlag() == 0 && len(args) > 0`, with the same body as
the interspersed loop.  `names` is the set of flag names set so far on `f`
(`f.NFlag() == 0` iff `names = []`).  Returns (err, params, leftover args). -/
def pfLoop (f : List FlagDecl) (names : List String) (args params : List String) :
    Option ParseErr × List String × List String :=
  if args = [] ∨ names ≠ [] then (none, params, args)
  else
    match hfp : flagParse f args with
    | (some e, _, _) => (some e, params, args)
    | (none, rem, sets) =>
      if didStopAfterDoubleMinus args rem then (none, params ++ rem, [])
      else
        match rem with
        | [] => (none, params, [])
        | s :: t => pfLoop f (applySets names sets) t (params ++ [s])
termination_by args.length
decreasing_by
  have hlen := flagParse_len f args
  rw [hfp] at hlen
  simp only [] at hlen
  simp at hlen
  omega

/-- One unfolding of the `parseSubCommandParametersFirst` loop. -/
theorem pfLoop_eq (f : List FlagDecl) (names args params : List String) :
    pfLoop f names args params =
      if args = [] ∨ names ≠ [] then (none, params, args)
      else
        match flagParse f args with
        | (some e, _, _) => (some e, params, args)
        | (none, rem, sets) =>
          if didStopAfterDoubleMinus args rem then (none, params ++ rem, [])
          else
            match rem with
            | [] => (none, params, [])
            | s :: t => pfLoop f (applySets names sets) t (params ++ [s]) := by
  rw [pfLoop]
  by_cases ha : args = [] ∨ names ≠ []
  · simp [ha]
  · rw [if_neg ha, if_neg ha]
    split
    · rename_i e fst snd heq
      simp only [heq]
    · rename_i rem sets heq
      simp only [heq]
      by_cases hds : didStopAfterDoubleMinus args rem = true
      · simp [hds]
      · simp only [Bool.not_eq_true] at hds
        simp only [hds, Bool.false_eq_true, if_false]
        cases rem <;> rfl

/-- Fuel-indexed copy of `pfLoop` for concrete evaluation. -/
def pfLoopF : Nat → List FlagDecl → List String → List String → List String →
    Option ParseErr × List String × List String
  | 0, _, _, args, params => (none, params, args)
  | fuel + 1, f, names, args, params =>
    if args = [] ∨ names ≠ [] then (none, params, args)
    else
      match flagParse f args with
      | (some e, _, _) => (some e, params, args)
      | (none, rem, sets) =>
        if didStopAfterDoubleMinus args rem then (none, params ++ rem, [])
        else
          match rem with
          | [] => (none, params, [])
          | s :: t => pfLoopF fuel f (applySets names sets) t (params ++ [s])

theorem pfLoop_eq_fuel :
    ∀ (n : Nat) (f : List FlagDecl) (names args params : List String),
      args.length ≤ n → pfLoop f names args params = pfLoopF n f names args params := by
  intro n
  induction n with
  | zero =>
    intro f names args params h
    have : args = [] := List.length_eq_zero.mp (Nat.le_zero.mp h)
    subst this
    simp [pfLoop_eq, pfLoopF]
  | succ n ih =>
    intro f names args params h
    rw [pfLoop_eq]
    by_cases ha : args = [] ∨ names ≠ []
    · simp only [pfLoopF, ha, if_true]
    · rw [pfLoopF, if_neg ha, if_neg ha]
      cases hfp : flagParse f args with
      | mk e rst =>
        cases e with
        | some e => rfl
        | none =>
          by_cases hds : didStopAfterDoubleMinus args rst.1 = true
          · simp [hds]
          · simp only [Bool.not_eq_true] at hds
            simp only [hds, Bool.false_eq_true, if_false]
            cases hr : rst.1 with
            | nil => rfl
            | cons s t =>
              have hlen := flagParse_len f args
              rw [hfp] at hlen
              simp only [hr] at hlen
              have ht : t.length ≤ n := by
                simp [List.length_cons] at hlen
                omega
              exact ih f (applySets names rst.2) t (params ++ [s]) ht

/-- `parseSubCommandParametersFirst` from subcommander.go, up to the final
`subCommand.SetParameters(params)` call: after the loop, a non-help parse
error is converted to `FlagsAfterParametersError(err.Error())`, and leftover
tokens are reported as `FlagsAfterParametersError(strings.Join(args, ", "))`. -/
def parseSubCommandParametersFirst (f : List FlagDecl) (args : List String) :
    Except ModeErr (List String) :=
  match pfLoop f [] args [] with
  | (some e, _, _) =>
    if e = .errHelp then .error (.flagErr .errHelp)
    else .error (.flagsAfterParams (goErrString e))
  | (none, params, rest) =>
    if rest ≠ [] then .error (.flagsAfterParams (String.intercalate ", " rest))
    else .ok params

/-- Evaluation form of `parseSubCommandParametersFirst` on concrete inputs. -/
theorem parseSubCommandParametersFirst_eval (f : List FlagDecl) (args : List String) :
    parseSubCommandParametersFirst f args =
      match pfLoopF args.length f [] args [] with
      | (some e, _, _) =>
        if e = .errHelp then .error (.flagErr .errHelp)
        else .error (.flagsAfterParams (goErrString e))
      | (none, params, rest) =>
        if rest ≠ [] then .error (.flagsAfterParams (String.intercalate ", " rest))
        else .ok params := by
  unfold parseSubCommandParametersFirst
  rw [pfLoop_eq_fuel args.length f [] args [] (le_refl _)]

/-- C3, claim as frozen, is false: in FlagsFirst mode classifying
`["-a","1","x","-b"]` with `-a` and `-b` declared does not fail with
`FlagsAfterParameters`; flag parsing stops at `x` and `SetParameters`
receives `["x","-b"]` (exactly what the repository's own FlagsFirst test
expects). -/
theorem C3_counterexample :
    parseSubCommandFlagsFirst [strFlag "a", strFlag "b"] ["-a", "1", "x", "-b"] =
      .ok ["x", "-b"] := rfl

/-- C3 (amended).  `parseSubCommandFlagsFirst` performs a single `Parse` and
never produces a `FlagsAfterParameters` violation: it either fails with the
collaborator's own parse error or hands every token from the first non-flag
token on — flag-shaped or not — verbatim to `SetParameters`; in particular
`["-a","1","x","-b"]` with `-a`, `-b` declared hands over `["x","-b"]`. -/
theorem C3_flagsFirst_passes_trailing_tokens :
    (∀ (f : List FlagDecl) (args : List String),
        (∃ ps, parseSubCommandFlagsFirst f args = .ok ps) ∨
        (∃ e, parseSubCommandFlagsFirst f args = .error (.flagErr e))) ∧
    parseSubCommandFlagsFirst [strFlag "a", strFlag "b"] ["-a", "1", "x", "-b"] =
      .ok ["x", "-b"] := by
  refine ⟨?_, rfl⟩
  intro f args
  unfold parseSubCommandFlagsFirst
  rcases hfp : flagParse f args with ⟨e, rst⟩
  cases e with
  | some e => exact Or.inr ⟨e, rfl⟩
  | none => exact Or.inl ⟨rst.1, rfl⟩

/-- C4, claim as frozen, is false: in ParametersFirst mode classifying
`["x","-a","1","y"]` with `-a` declared succeeds — the trailing `y` is
consumed in the same loop iteration that parsed `-a 1`, before the
`NFlag() == 0` guard is rechecked — and `SetParameters` receives
`["x","y"]`. -/
theorem C4_counterexample :
    parseSubCommandParametersFirst [strFlag "a"] ["x", "-a", "1", "y"] =
      .ok ["x", "y"] := by
  rw [parseSubCommandParametersFirst_eval]
  rfl

/-- C4 (amended).  ParametersFirst classification of `["x","-a","1","y"]`
with `-a` declared succeeds with parameters `["x","y"]`; the
`FlagsAfterParameters` violation arises only for tokens still unconsumed
when the loop exits with a flag already set, e.g. `["x","-a","1","y","z"]`
fails with `FlagsAfterParameters` referencing the leftover `"z"`. -/
theorem C4_parametersFirst_leftover_only :
    parseSubCommandParametersFirst [strFlag "a"] ["x", "-a", "1", "y"] =
      .ok ["x", "y"] ∧
    parseSubCommandParametersFirst [strFlag "a"] ["x", "-a", "1", "y", "z"] =
      .error (.flagsAfterParams "z") := by
  constructor <;> rw [parseSubCommandParametersFirst_eval] <;> rfl

/-- Witness for C10: on a failing input params is nil, on a succeeding one it
is a non-nil slice. -/
theorem C10_witness :
    (ParseArgumentsInterspersed [] ["-q"]).params = none ∧
    ∃ ps, (ParseArgumentsInterspersed [] ["ok"]).params = some ps :=
  ⟨(C10_params_nil_iff_err [] ["-q"]).1
      (by rw [ParseArgumentsInterspersed_eval]; rfl),
    (C10_params_nil_iff_err [] ["ok"]).2
      (by rw [ParseArgumentsInterspersed_eval]; rfl)⟩

theorem parseArgumentsInterspersedAssigns_eval (f : List FlagDecl) (args : List String) :
    parseArgumentsInterspersedAssigns f args = (interLoopF args.length f args [] []).2.2 := by
  unfold parseArgumentsInterspersedAssigns
  rw [interLoop_eq_fuel args.length f args [] [] (le_refl _)]

/-- Inner payload of a `ParsingSubCommandError` (subcommand package): either
the flag-parse error returned by `cli.ParseArgumentsInterspersed`, the error
returned by `subCommand.SetParameters`, or a panic message captured by the
`recover()` in `executeSubCommand` and wrapped via `fmt.Errorf("%v", r)`. -/
inductive SubParseInner where
  | flagErr (e : ParseErr)
  | setParams (msg : String)
  | recoveredPanic (msg : String)
deriving DecidableEq, Repr

/-- Errors returned by `SubCommander.ExecuteContextOut` (part of the
subcommand package error taxonomy). -/
inductive SubRunErr where
  | parsingGlobalArgs (e : ParseErr)
  | unsuppliedSubCommand
  | unknownSubCommand (name : String)
  | parsingSubCommand (e : SubParseInner)
  | executingSubCommand (msg : String)
deriving DecidableEq, Repr

/-- Model of a registered `SubCommand`: static data plus the behaviour of
its `SetParameters` (returns `some msg` when it errors) and `Execute`
(likewise) callbacks. -/
structure SubCommandM where
  name : String
  aliases : List String
  flags : List FlagDecl
  synopsis : String
  setParamsErr : List String → Option String
  execErr : Option String

/-- Model of a `SubCommander` (subcommand package): `GlobalFlags` (`none`
models a nil `FlagSetter`), the `DisallowGlobalFlagsWithSubCommand` option,
and the `names`/`aliases` registries as association lists (Go maps; every
use either looks up a key or sorts the keys, so list position is
immaterial). -/
structure SubCommanderM where
  globalFlags : Option (List FlagDecl)
  disallowGlobalFlagsWithSubCommand : Bool
  names : List (String × SubCommandM)
  aliases : List (String × SubCommandM)

/-- Association-list lookup, the map index `m[name]`. -/
def lookupA (m : List (String × SubCommandM)) (k : String) : Option SubCommandM :=
  (m.find? (fun p => p.1 == k)).map (·.2)

/-- `SubCommander.getSubCommand`: names first, then aliases. -/
def getSubCommand (sc : SubCommanderM) (name : String) : Option SubCommandM :=
  match lookupA sc.names name with
  | some s => some s
  | none => lookupA sc.aliases name

/-- `flag.FlagSet.Var`'s redeclaration check: declaring `ds` one by one onto
`f`; a name already present panics with Go's "flag redefined" message
(`fsName` is the flag set's name, the sub-command's name here). -/
def declareFlags (fsName : String) (f : List FlagDecl) :
    List FlagDecl → Except String (List FlagDecl)
  | [] => .ok f
  | d :: ds =>
    if f.any (fun d0 => d0.name == d.name) then
      .error (if fsName = "" then "flag redefined: " ++ d.name
              else fsName ++ " flag redefined: " ++ d.name)
    else declareFlags fsName (f ++ [d]) ds

/-- The flag-set construction of `parseSubCommandArgs` (part_013):
`cli.NewFlagSet(subCommand.Name(), subCommand)` declares the sub-command's
flags, then, unless `DisallowGlobalFlagsWithSubCommand` is set or
`GlobalFlags` is nil, `sc.GlobalFlags.SetFlags(f)` declares the global flags
onto the same flag set.  `.error msg` is the "flag redefined" panic. -/
def buildSubFlagSet (sc : SubCommanderM) (sub : SubCommandM) :
    Except String (List FlagDecl) :=
  match declareFlags sub.name [] sub.flags with
  | .error m => .error m
  | .ok f =>
    if ¬sc.disallowGlobalFlagsWithSubCommand ∧ sc.globalFlags.isSome then
      declareFlags sub.name f (sc.globalFlags.getD [])
    else .ok f

/-- Observable outcome of one `SubCommander.ExecuteContextOut` run:
the returned error, the assignments made on the global-parse flag set and on
the sub-command flag set (in Go, writes to the destinations bound by the
declarers), the parameter list passed to `SetParameters` (`none` if it was
never called), and whether `Execute` was invoked (it is invoked at most once
by construction of the straight-line code). -/
structure DispatchResult where
  err : Option SubRunErr
  globalAssigns : List (String × String)
  subAssigns : List (String × String)
  params : Option (List String)
  executed : Bool
deriving DecidableEq, Repr

/-- `SubCommander.executeSubCommand` + `parseSubCommandArgs` (part_013):
build the sub-command flag set (a "flag redefined" panic is caught by the
deferred `recover()` and becomes `ParsingSubCommandError`), classify the
remaining tokens with `cli.ParseArgumentsInterspersed`, call `SetParameters`,
then `Execute`; errors wrap as `ParsingSubCommandError` /
`ExecutingSubCommandError`. -/
def executeSubCommand (sc : SubCommanderM) (sub : SubCommandM)
    (args : List String) (ga : List (String × String)) : DispatchResult :=
  match buildSubFlagSet sc sub with
  | .error m => ⟨some (.parsingSubCommand (.recoveredPanic m)), ga, [], none, false⟩
  | .ok f2 =>
    match (ParseArgumentsInterspersed f2 args).err with
    | some e =>
      ⟨some (.parsingSubCommand (.flagErr e)), ga,
        parseArgumentsInterspersedAssigns f2 args, none, false⟩
    | none =>
      let ps := (ParseArgumentsInterspersed f2 args).params.getD []
      let sa := parseArgumentsInterspersedAssigns f2 args
      match sub.setParamsErr ps with
      | some m => ⟨some (.parsingSubCommand (.setParams m)), ga, sa, some ps, false⟩
      | none =>
        match sub.execErr with
        | some m => ⟨some (.executingSubCommand m), ga, sa, some ps, true⟩
        | none => ⟨none, ga, sa, some ps, true⟩

/-- `SubCommander.executeContextOut` (part_013): parse global flags with a
fresh collaborator (plain `f.Parse`, which stops at the first non-flag
token), consume the next token as the sub-command selector, resolve it in
the registry, and delegate to `executeSubCommand`.  (The model assumes the
global declarer itself has no duplicate names: such a panic would propagate,
which no claim exercises.) -/
def executeContextOut (sc : SubCommanderM) (args : List String) : DispatchResult :=
  match flagParse (sc.globalFlags.getD []) args with
  | (some e, _, ga) => ⟨some (.parsingGlobalArgs e), ga, [], none, false⟩
  | (none, rem, ga) =>
    match rem with
    | [] => ⟨some .unsuppliedSubCommand, ga, [], none, false⟩
    | nm :: rest =>
      match getSubCommand sc nm with
      | none => ⟨some (.unknownSubCommand nm), ga, [], none, false⟩
      | some sub => executeSubCommand sc sub rest ga

/-- Which error classes make `SubCommander.ExecuteContextOut` render help or
error text to `outErr` before returning (its `if ... ok := err.(...)` chain);
an `ExecutingSubCommandError` returns with no rendering. -/
def subHelpRendered : Option SubRunErr → Bool
  | some (.parsingGlobalArgs _) => true
  | some .unsuppliedSubCommand => true
  | some (.unknownSubCommand _) => true
  | some (.parsingSubCommand _) => true
  | _ => false

/-- Evaluation form of `executeSubCommand` on concrete inputs. -/
theorem executeSubCommand_eval (sc : SubCommanderM) (sub : SubCommandM)
    (args : List String) (ga : List (String × String)) :
    executeSubCommand sc sub args ga =
      match buildSubFlagSet sc sub with
      | .error m => ⟨some (.parsingSubCommand (.recoveredPanic m)), ga, [], none, false⟩
      | .ok f2 =>
        match (match interLoopF args.length f2 args [] [] with
               | (some e, _, _) => (⟨none, some e⟩ : InterspersedResult)
               | (none, ps, _) => ⟨some ps, none⟩).err with
        | some e =>
          ⟨some (.parsingSubCommand (.flagErr e)), ga,
            (interLoopF args.length f2 args [] []).2.2, none, false⟩
        | none =>
          let ps := (match interLoopF args.length f2 args [] [] with
                     | (some e, _, _) => (⟨none, some e⟩ : InterspersedResult)
                     | (none, ps, _) => ⟨some ps, none⟩).params.getD []
          let sa := (interLoopF args.length f2 args [] []).2.2
          match sub.setParamsErr ps with
          | some m => ⟨some (.parsingSubCommand (.setParams m)), ga, sa, some ps, false⟩
          | none =>
            match sub.execErr with
            | some m => ⟨some (.executingSubCommand m), ga, sa, some ps, true⟩
            | none => ⟨none, ga, sa, some ps, true⟩ := by
  unfold executeSubCommand
  cases hb : buildSubFlagSet sc sub with
  | error m => rfl
  | ok f2 =>
    dsimp only
    rw [ParseArgumentsInterspersed_eval f2 args, parseArgumentsInterspersedAssigns_eval f2 args]

/-- Inner payload of a `ParsingCommandError` (command package). -/
inductive CmdParseInner where
  | flagErr (e : ParseErr)
  | setParams (msg : String)
deriving DecidableEq, Repr

/-- Errors returned by `Commander.ExecuteContext` (command package). -/
inductive CmdRunErr where
  | parsingCommand (e : CmdParseInner)
  | executingCommand (msg : String)
deriving DecidableEq, Repr

/-- Observable outcome of one `Commander.executeContext` run (part_003):
the returned error, the parameter list passed to `SetParameters` (`none` if
never called), and whether `Execute` was invoked (at most once by
construction of the straight-line code — there is no retry path). -/
structure CommanderRun where
  err : Option CmdRunErr
  params : Option (List String)
  executed : Bool
deriving DecidableEq, Repr

/-- `Commander.executeContext` (part_003): classify with
`cli.ParseArgumentsInterspersed`; errors wrap as `ParsingCommandError`;
then `SetParameters`; its error wraps as `ParsingCommandError`; then
`Execute`; its error wraps as `ExecutingCommandError`.  `setParamsErr` and
`execErr` model the command's callbacks.  (`params.getD []` is Go's nil
slice passed on; on the error-free path params is always non-nil, so the
default is never exercised.) -/
def executeContext (f : List FlagDecl) (args : List String)
    (setParamsErr : List String → Option String) (execErr : Option String) :
    CommanderRun :=
  match (ParseArgumentsInterspersed f args).err with
  | some e => ⟨some (.parsingCommand (.flagErr e)), none, false⟩
  | none =>
    let ps := (ParseArgumentsInterspersed f args).params.getD []
    match setParamsErr ps with
    | some m => ⟨some (.parsingCommand (.setParams m)), some ps, false⟩
    | none =>
      match execErr with
      | some m => ⟨some (.executingCommand m), some ps, true⟩
      | none => ⟨none, some ps, true⟩

/-- `Commander.ExecuteContext` renders help/error text to `outErr` only for
a `*ParsingCommandError`; an `ExecutingCommandError` is returned as-is. -/
def cmdHelpRendered : Option CmdRunErr → Bool
  | some (.parsingCommand _) => true
  | _ => false

/-- The sub-command and dispatcher of the C6 failing input: the global
declarer and the selected sub-command both declare `-foo` on the same
collaborator flag set. -/
def subColl : SubCommandM := ⟨"sub", [], [strFlag "foo"], "", fun _ => none, none⟩

/-- SubCommander whose `GlobalFlags` also declares `-foo`, mixing allowed. -/
def scColl : SubCommanderM := ⟨some [strFlag "foo"], false, [("sub", subColl)], []⟩

/-- C6 evaluated at the failing input: the "flag redefined" panic raised when
the global declarer re-declares `-foo` on the sub-command's flag set is
caught by the deferred `recover()` in `executeSubCommand` and surfaces as an
ordinary `ParsingSubCommandError` (which even renders help text), not as a
fatal abort — contradicting the claim and the repository's own test, which
expects the panic to propagate. -/
theorem C6_collision_recovered_as_parsing_error :
    executeContextOut scColl ["sub"] =
      ⟨some (.parsingSubCommand (.recoveredPanic "sub flag redefined: foo")),
        [], [], none, false⟩ ∧
    subHelpRendered (executeContextOut scColl ["sub"]).err = true := by
  constructor <;> rfl

/-- The C8 sub-command: `-s` declared, abstract SetParameters/Execute
behaviour. -/
def sub8 (sp : List String → Option String) (ex : Option String) : SubCommandM :=
  ⟨"sub", [], [strFlag "s"], "", sp, ex⟩

/-- The C8 dispatcher: global flag `-g`, registered sub-command `sub`. -/
def sc8 (dis : Bool) (sp : List String → Option String) (ex : Option String) :
    SubCommanderM :=
  ⟨some [strFlag "g"], dis, [("sub", sub8 sp ex)], []⟩

/-- C8.  With global/sub-command flag mixing allowed (the default),
`["-g","1","sub","-s","2"]` and `["sub","-g","1","-s","2"]` produce the same
error, the same captured parameters, the same execution, and the same flag
assignments in the same order (whatever the sub-command's
SetParameters/Execute callbacks do) — and with the default callbacks both
succeed, assigning g="1" and s="2" and executing; with mixing disallowed
the second form fails with "flag provided but not defined: -g" wrapped as a
`ParsingSubCommandError`, and `Execute` never runs. -/
theorem C8_mixed_flag_order_equivalent :
    (∀ (sp : List String → Option String) (ex : Option String),
      (executeContextOut (sc8 false sp ex) ["-g", "1", "sub", "-s", "2"]).err =
          (executeContextOut (sc8 false sp ex) ["sub", "-g", "1", "-s", "2"]).err ∧
      (executeContextOut (sc8 false sp ex) ["-g", "1", "sub", "-s", "2"]).params =
          (executeContextOut (sc8 false sp ex) ["sub", "-g", "1", "-s", "2"]).params ∧
      (executeContextOut (sc8 false sp ex) ["-g", "1", "sub", "-s", "2"]).executed =
          (executeContextOut (sc8 false sp ex) ["sub", "-g", "1", "-s", "2"]).executed ∧
      (executeContextOut (sc8 false sp ex) ["-g", "1", "sub", "-s", "2"]).globalAssigns ++
          (executeContextOut (sc8 false sp ex) ["-g", "1", "sub", "-s", "2"]).subAssigns =
        (executeContextOut (sc8 false sp ex) ["sub", "-g", "1", "-s", "2"]).globalAssigns ++
          (executeContextOut (sc8 false sp ex) ["sub", "-g", "1", "-s", "2"]).subAssigns) ∧
    executeContextOut (sc8 false (fun _ => none) none) ["-g", "1", "sub", "-s", "2"] =
      ⟨none, [("g", "1")], [("s", "2")], some [], true⟩ ∧
    executeContextOut (sc8 false (fun _ => none) none) ["sub", "-g", "1", "-s", "2"] =
      ⟨none, [], [("g", "1"), ("s", "2")], some [], true⟩ ∧
    executeContextOut (sc8 true (fun _ => none) none) ["sub", "-g", "1", "-s", "2"] =
      ⟨some (.parsingSubCommand (.flagErr (.notDefined "g"))), [], [], none, false⟩ := by
  have h1 : ∀ (sp : List String → Option String) (ex : Option String),
      executeContextOut (sc8 false sp ex) ["-g", "1", "sub", "-s", "2"] =
        match sp [] with
        | some m =>
          ⟨some (.parsingSubCommand (.setParams m)), [("g", "1")], [("s", "2")],
            some [], false⟩
        | none =>
          match ex with
          | some m =>
            ⟨some (.executingSubCommand m), [("g", "1")], [("s", "2")], some [], true⟩
          | none => ⟨none, [("g", "1")], [("s", "2")], some [], true⟩ := by
    intro sp ex
    show executeSubCommand (sc8 false sp ex) (sub8 sp ex) ["-s", "2"] [("g", "1")] = _
    rw [executeSubCommand_eval]
    rfl
  have h2 : ∀ (sp : List String → Option String) (ex : Option String),
      executeContextOut (sc8 false sp ex) ["sub", "-g", "1", "-s", "2"] =
        match sp [] with
        | some m =>
          ⟨some (.parsingSubCommand (.setParams m)), [], [("g", "1"), ("s", "2")],
            some [], false⟩
        | none =>
          match ex with
          | some m =>
            ⟨some (.executingSubCommand m), [], [("g", "1"), ("s", "2")], some [], true⟩
          | none => ⟨none, [], [("g", "1"), ("s", "2")], some [], true⟩ := by
    intro sp ex
    show executeSubCommand (sc8 false sp ex) (sub8 sp ex) ["-g", "1", "-s", "2"] [] = _
    rw [executeSubCommand_eval]
    rfl
  refine ⟨?_, ?_, ?_, ?_⟩
  · intro sp ex
    rw [h1 sp ex, h2 sp ex]
    rcases hsp : sp [] with _ | m
    · rcases ex with _ | m2 <;> simp
    · simp
  · rw [h1]
  · rw [h2]
  · show executeSubCommand (sc8 true (fun _ => none) none)
        (sub8 (fun _ => none) none) ["-g", "1", "-s", "2"] [] = _
    rw [executeSubCommand_eval]
    rfl

/-- C7.  For every Commander run: a classification failure or a
`SetParameters` failure is wrapped as a `ParsingCommandError` and `Execute`
is never invoked; when parsing and `SetParameters` succeed, `Execute` runs
(exactly once — the code is a single pass with no retry path, `executed` is
the number of invocations), its error is wrapped as `ExecutingCommandError`
and returned with no help rendering.  For every SubCommander run: execution
happens only when no parse-phase error occurred, an
`ExecutingSubCommandError` implies `Execute` ran and nothing is rendered,
and any `ParsingSubCommandError` implies `Execute` never ran. -/
theorem C7_parse_halts_before_execute :
    (∀ (f : List FlagDecl) (args : List String)
        (sp : List String → Option String) (ex : Option String) (e : ParseErr),
      (ParseArgumentsInterspersed f args).err = some e →
      executeContext f args sp ex =
        ⟨some (.parsingCommand (.flagErr e)), none, false⟩) ∧
    (∀ (f : List FlagDecl) (args : List String)
        (sp : List String → Option String) (ex : Option String)
        (ps : List String) (m : String),
      ParseArgumentsInterspersed f args = ⟨some ps, none⟩ → sp ps = some m →
      executeContext f args sp ex =
        ⟨some (.parsingCommand (.setParams m)), some ps, false⟩) ∧
    (∀ (f : List FlagDecl) (args : List String)
        (sp : List String → Option String) (ex : Option String) (ps : List String),
      ParseArgumentsInterspersed f args = ⟨some ps, none⟩ → sp ps = none →
      executeContext f args sp ex =
        ⟨Option.map CmdRunErr.executingCommand ex, some ps, true⟩ ∧
      cmdHelpRendered (executeContext f args sp ex).err = false) ∧
    (∀ (sc : SubCommanderM) (args : List String),
      ((executeContextOut sc args).executed = true →
        (executeContextOut sc args).err = none ∨
          ∃ m, (executeContextOut sc args).err = some (.executingSubCommand m)) ∧
      (∀ m, (executeContextOut sc args).err = some (.executingSubCommand m) →
        (executeContextOut sc args).executed = true ∧
        subHelpRendered (executeContextOut sc args).err = false) ∧
      (∀ inner, (executeContextOut sc args).err = some (.parsingSubCommand inner) →
        (executeContextOut sc args).executed = false)) := by
  refine ⟨?_, ?_, ?_, ?_⟩
  · intro f args sp ex e h
    unfold executeContext
    rw [h]
  · intro f args sp ex ps m h hsp
    unfold executeContext
    rw [h]
    simp [hsp]
  · intro f args sp ex ps h hsp
    constructor
    · unfold executeContext
      rw [h]
      simp [hsp]
      cases ex <;> rfl
    · unfold executeContext cmdHelpRendered
      rw [h]
      simp [hsp]
      cases ex <;> rfl
  · intro sc args
    unfold executeContextOut
    rcases hg : flagParse (sc.globalFlags.getD []) args with ⟨e, rem, ga⟩
    try simp only [hg]
    cases e with
    | some e => simp [subHelpRendered]
    | none =>
      try dsimp only
      cases rem with
      | nil => simp [subHelpRendered]
      | cons nm rest =>
        try dsimp only
        cases hgs : getSubCommand sc nm with
        | none => simp [subHelpRendered]
        | some sub =>
          simp only [hgs]
          unfold executeSubCommand
          cases hb : buildSubFlagSet sc sub with
          | error m => simp [subHelpRendered]
          | ok f2 =>
            simp only [hb]
            cases hpe : (ParseArgumentsInterspersed f2 rest).err with
            | some e2 => simp [hpe, subHelpRendered]
            | none =>
              simp only [hpe]
              try dsimp only
              cases hsp : sub.setParamsErr
                  ((ParseArgumentsInterspersed f2 rest).params.getD []) with
              | some m => simp [hsp, subHelpRendered]
              | none =>
                simp only [hsp]
                cases hex : sub.execErr with
                | some m => simp [hex, subHelpRendered]
                | none => simp [hex, subHelpRendered]

/-- Witness for C7: a classification failure halts before `Execute`; a
successful parse with a failing `Execute` yields an `ExecutingCommandError`,
one execution, and no help rendering. -/
theorem C7_witness :
    executeContext [] ["-q"] (fun _ => none) none =
      ⟨some (.parsingCommand (.flagErr (.notDefined "q"))), none, false⟩ ∧
    executeContext [] ["p"] (fun _ => none) (some "boom") =
      ⟨some (.executingCommand "boom"), some ["p"], true⟩ ∧
    cmdHelpRendered (executeContext [] ["p"] (fun _ => none) (some "boom")).err =
      false :=
  ⟨C7_parse_halts_before_execute.1 [] ["-q"] (fun _ => none) none
      (.notDefined "q") (by rw [ParseArgumentsInterspersed_eval]; rfl),
    (C7_parse_halts_before_execute.2.2.1 [] ["p"] (fun _ => none) (some "boom")
        ["p"] (by rw [ParseArgumentsInterspersed_eval]; rfl) rfl).1,
    (C7_parse_halts_before_execute.2.2.1 [] ["p"] (fun _ => none) (some "boom")
        ["p"] (by rw [ParseArgumentsInterspersed_eval]; rfl) rfl).2⟩

/-- Go `sort.Strings` (ascending; UTF-8 byte order coincides with the
character order used here). -/
def sortStrings (l : List String) : List String := l.mergeSort (fun a b => a ≤ b)

theorem sortStrings_sorted (l : List String) : List.Sorted (· ≤ ·) (sortStrings l) :=
  List.sorted_mergeSort' l

theorem sortStrings_perm (l : List String) : List.Perm (sortStrings l) l :=
  List.mergeSort_perm l _

theorem sortStrings_eq_of_perm {l l' : List String} (hp : List.Perm l l') :
    sortStrings l = sortStrings l' :=
  List.eq_of_perm_of_sorted
    ((sortStrings_perm l).trans (hp.trans (sortStrings_perm l').symm))
    (sortStrings_sorted l) (sortStrings_sorted l')

/-- `GetJoinedNameSortedAliases` from cli.go: the name followed by the sorted
aliases, joined by ", ". -/
def GetJoinedNameSortedAliases (name : String) (aliases : List String) : String :=
  String.intercalate ", " (name :: sortStrings aliases)

/-- `padRight` from part_013: `count - len(value)` spaces (every call site
has `count ≥ len(value)`). -/
def padRight (count : Nat) (value : String) : String :=
  String.mk (List.replicate (count - value.length) ' ')

/-- `maxLen` from part_013. -/
def maxLen (values : List String) : Nat :=
  values.foldl (fun m s => if s.length > m then s.length else m) 0

/-- `SubCommander.Register`'s effect on the `names` map:
`sc.names[subCommand.Name()] = subCommand`, overwriting any previous entry. -/
def insertNamed (sub : SubCommandM) (m : List (String × SubCommandM)) :
    List (String × SubCommandM) :=
  if m.any (fun p => p.1 == sub.name) then
    m.map (fun p => if p.1 == sub.name then (sub.name, sub) else p)
  else m ++ [(sub.name, sub)]

/-- Registering a list of sub-commands in order on an empty dispatcher. -/
def registerAll (subs : List SubCommandM) : List (String × SubCommandM) :=
  subs.foldl (fun m s => insertNamed s m) []

/-- `SubCommander.getAvailableSubCommandsUsage` from part_013: empty registry
renders nothing; otherwise the `sub_commands:` header followed, for each
primary name in sorted order, by a line of two spaces, the joined
name+sorted-aliases entry, padding to column `max(16, longest entry + 4)`
(`int(math.Max(16, float64(maxLen+4)))` is exact at these magnitudes), and
the sub-command's synopsis. -/
def getAvailableSubCommandsUsage (names : List (String × SubCommandM)) : String :=
  if names.isEmpty then ""
  else
    let keys := sortStrings (names.map (·.1))
    let allNameAliases := keys.map (fun k =>
      match lookupA names k with
      | some sub => GetJoinedNameSortedAliases sub.name sub.aliases
      | none => "")
    let pad := max 16 (maxLen allNameAliases + 4)
    "sub_commands:" ++
      String.join ((List.zip keys allNameAliases).map (fun p =>
        "\n  " ++ p.2 ++ padRight pad p.2 ++
          (match lookupA names p.1 with
           | some sub => sub.synopsis
           | none => "")))

/-- Reference rendering written from the claim: one entry per registered
primary name, sorted by primary name; each entry is the primary name
followed by its sorted aliases joined by ", ", column-padded to width
`max(16, longest entry + 4)`, followed by that sub-command's synopsis.
Defined directly on the collection of registered sub-commands. -/
def specAvailableSubCommands (subs : List SubCommandM) : String :=
  if subs.isEmpty then ""
  else
    let keys := sortStrings (subs.map (·.name))
    let entries := keys.map (fun k =>
      match subs.find? (fun s => s.name == k) with
      | some s => GetJoinedNameSortedAliases s.name s.aliases
      | none => "")
    let pad := max 16 (maxLen entries + 4)
    "sub_commands:" ++
      String.join ((List.zip keys entries).map (fun p =>
        "\n  " ++ p.2 ++ padRight pad p.2 ++
          (match subs.find? (fun s => s.name == p.1) with
           | some s => s.synopsis
           | none => "")))

theorem lookupA_map_toPair (subs : List SubCommandM) (k : String) :
    lookupA (subs.map (fun s => (s.name, s))) k =
      subs.find? (fun s => s.name == k) := by
  induction subs with
  | nil => rfl
  | cons s tl ih =>
    by_cases h : s.name == k
    · simp [lookupA, List.find?, h]
    · simp only [List.map_cons, lookupA, List.find?, h] at ih ⊢
      simpa [lookupA] using ih

theorem registerAll_go (subs : List SubCommandM) :
    ∀ (m : List (String × SubCommandM)),
      (∀ s ∈ subs, ¬ s.name ∈ m.map (·.1)) →
      (subs.map (·.name)).Nodup →
      subs.foldl (fun m s => insertNamed s m) m =
        m ++ subs.map (fun s => (s.name, s)) := by
  induction subs with
  | nil => intro m _ _; simp
  | cons s tl ih =>
    intro m hm hnd
    have hnotin : ¬ m.any (fun p => p.1 == s.name) = true := by
      intro hany
      rcases List.any_eq_true.mp hany with ⟨p, hp, hpe⟩
      refine hm s (by simp) ?_
      have hpe' : p.1 = s.name := by simpa using hpe
      exact hpe' ▸ List.mem_map.mpr ⟨p, hp, rfl⟩
    have hins : insertNamed s m = m ++ [(s.name, s)] := by
      unfold insertNamed
      rw [if_neg hnotin]
    have hnd' : (tl.map (·.name)).Nodup := (List.nodup_cons.mp hnd).2
    have hs_notin_tl : ¬ s.name ∈ tl.map (·.name) := (List.nodup_cons.mp hnd).1
    have hm' : ∀ t ∈ tl, ¬ t.name ∈ (m ++ [(s.name, s)]).map (·.1) := by
      intro t ht
      simp only [List.map_append, List.mem_append]
      rintro (h1 | h2)
      · exact hm t (List.mem_cons_of_mem _ ht) h1
      · simp at h2
        exact hs_notin_tl (h2 ▸ List.mem_map.mpr ⟨t, ht, rfl⟩)
    calc (s :: tl).foldl (fun m s => insertNamed s m) m
        = tl.foldl (fun m s => insertNamed s m) (m ++ [(s.name, s)]) := by
          rw [List.foldl_cons, hins]
      _ = (m ++ [(s.name, s)]) ++ tl.map (fun s => (s.name, s)) := ih _ hm' hnd'
      _ = m ++ (s :: tl).map (fun s => (s.name, s)) := by simp

theorem registerAll_eq_map (subs : List SubCommandM)
    (h : (subs.map (·.name)).Nodup) :
    registerAll subs = subs.map (fun s => (s.name, s)) := by
  unfold registerAll
  rw [registerAll_go subs [] (by simp) h]
  simp

theorem find?_name_of_mem {l : List SubCommandM} {s : SubCommandM} {k : String}
    (hnd : (l.map (·.name)).Nodup) (hmem : s ∈ l) (hk : s.name = k) :
    l.find? (fun x => x.name == k) = some s := by
  induction l with
  | nil => simp at hmem
  | cons a tl ih =>
    by_cases ha : a.name == k
    · have hae : a.name = k := by simpa using ha
      rcases List.mem_cons.mp hmem with rfl | hmt
      · simp [List.find?, ha]
      · exfalso
        have : a.name ∈ tl.map (·.name) := by
          rw [hae, ← hk]
          exact List.mem_map.mpr ⟨s, hmt, rfl⟩
        exact (List.nodup_cons.mp hnd).1 this
    · have has : s ≠ a := by
        intro he
        rw [he] at hk
        exact ha (by simp [hk])
      rcases List.mem_cons.mp hmem with rfl | hmt
      · exact absurd rfl has
      · simp only [List.find?, ha]
        exact ih (List.nodup_cons.mp hnd).2 hmt

theorem find?_name_perm {subs subs' : List SubCommandM}
    (hp : List.Perm subs subs') (hnd : (subs.map (·.name)).Nodup) (k : String) :
    subs.find? (fun s => s.name == k) = subs'.find? (fun s => s.name == k) := by
  have hnd' : (subs'.map (·.name)).Nodup := (hp.map (·.name)).nodup_iff.mp hnd
  cases hf : subs.find? (fun s => s.name == k) with
  | some s =>
    have hmem : s ∈ subs := List.mem_of_find?_eq_some hf
    have hk : s.name = k := by simpa using List.find?_some hf
    exact (find?_name_of_mem hnd' (hp.mem_iff.mp hmem) hk).symm
  | none =>
    have hall := List.find?_eq_none.mp hf
    symm
    exact List.find?_eq_none.mpr fun x hx => hall x (hp.mem_iff.mpr hx)

theorem getAvailable_eq_spec (subs : List SubCommandM)
    (h : (subs.map (·.name)).Nodup) :
    getAvailableSubCommandsUsage (registerAll subs) =
      specAvailableSubCommands subs := by
  rw [registerAll_eq_map subs h]
  have hie : (subs.map (fun s => (s.name, s))).isEmpty = subs.isEmpty := by
    cases subs <;> rfl
  unfold getAvailableSubCommandsUsage specAvailableSubCommands
  rw [hie]
  simp [lookupA_map_toPair, Function.comp_def]

theorem spec_perm_invariant {subs subs' : List SubCommandM}
    (hp : List.Perm subs subs') (h : (subs.map (·.name)).Nodup) :
    specAvailableSubCommands subs = specAvailableSubCommands subs' := by
  have hk : sortStrings (subs.map (·.name)) = sortStrings (subs'.map (·.name)) :=
    sortStrings_eq_of_perm (hp.map _)
  have hf : ∀ k, subs.find? (fun s => s.name == k) =
      subs'.find? (fun s => s.name == k) := fun k => find?_name_perm hp h k
  have hie : subs.isEmpty = subs'.isEmpty := by
    have := hp.length_eq
    cases subs <;> cases subs' <;> simp_all
  unfold specAvailableSubCommands
  rw [hie, hk]
  simp only [hf]

/-- C9.  For every registry contents with distinct primary names and every
registration order, the rendered available-sub-commands listing equals the
reference rendering: one entry per registered primary name, sorted by
primary name; each entry is the primary name followed by its sorted aliases
joined by ", ", column-padded to width `max(16, longest entry + 4)`,
followed by that sub-command's synopsis — and the rendering is invariant
under permuting the registration order. -/
theorem C9_available_subcommands_sorted :
    ∀ (subs subs' : List SubCommandM),
      (subs.map (·.name)).Nodup → List.Perm subs subs' →
      getAvailableSubCommandsUsage (registerAll subs) =
          specAvailableSubCommands subs ∧
      getAvailableSubCommandsUsage (registerAll subs) =
        getAvailableSubCommandsUsage (registerAll subs') := by
  intro subs subs' h hp
  have h' : (subs'.map (·.name)).Nodup := (hp.map (·.name)).nodup_iff.mp h
  have e1 := getAvailable_eq_spec subs h
  have e2 := getAvailable_eq_spec subs' h'
  have e3 := spec_perm_invariant hp h
  exact ⟨e1, by rw [e1, e3, ← e2]⟩

/-- A sub-command registered last alphabetically but first in time. -/
def subZeta : SubCommandM := ⟨"zeta", ["m", "k"], [], "last command", fun _ => none, none⟩

/-- A sub-command registered first alphabetically but last in time. -/
def subAlpha : SubCommandM := ⟨"alpha", [], [], "first command", fun _ => none, none⟩

/-- Witness for C9 at a concrete two-command registry, also evaluating the
rendered listing: sorted by primary name with sorted aliases and 16-column
padding, identical for both registration orders. -/
theorem C9_witness :
    ((([subZeta, subAlpha] : List SubCommandM).map (·.name)).Nodup ∧
      List.Perm [subZeta, subAlpha] [subAlpha, subZeta]) ∧
    (getAvailableSubCommandsUsage (registerAll [subZeta, subAlpha]) =
        specAvailableSubCommands [subZeta, subAlpha] ∧
      getAvailableSubCommandsUsage (registerAll [subZeta, subAlpha]) =
        getAvailableSubCommandsUsage (registerAll [subAlpha, subZeta])) ∧
    getAvailableSubCommandsUsage (registerAll [subZeta, subAlpha]) =
      "sub_commands:\n  alpha           first command\n  zeta, k, m      last command" :=
  ⟨⟨by decide, List.Perm.swap subAlpha subZeta []⟩,
    C9_available_subcommands_sorted [subZeta, subAlpha] [subAlpha, subZeta]
      (by decide) (List.Perm.swap subAlpha subZeta []),
    by
      have hs : sortStrings ["zeta", "alpha"] = ["alpha", "zeta"] := by
        simp [sortStrings, List.mergeSort, List.merge]
        decide
      have hs0 : sortStrings [] = [] := by simp [sortStrings]
      have hs2 : sortStrings ["m", "k"] = ["k", "m"] := by
        simp [sortStrings, List.mergeSort, List.merge]
        decide
      unfold getAvailableSubCommandsUsage
      rw [show registerAll [subZeta, subAlpha] =
            [("zeta", subZeta), ("alpha", subAlpha)] from rfl]
      rw [show ([("zeta", subZeta), ("alpha", subAlpha)] :
            List (String × SubCommandM)).map (·.1) = ["zeta", "alpha"] from rfl, hs]
      simp only [subZeta, subAlpha, lookupA, List.find?, List.map,
        GetJoinedNameSortedAliases,
        show (("zeta" : String) == "alpha") = false from rfl,
        show (("zeta" : String) == "zeta") = true from rfl,
        show (("alpha" : String) == "alpha") = true from rfl, hs0, hs2]
      simp only [Option.map]
      simp only [hs0, hs2]
      rfl⟩
